import Mathlib

/-!
Verification of the bond-arbitrage core against its specification.

The Python sources are shallowly embedded: floating-point values become
exact rationals `ℚ` (reals `ℝ` where the code takes square roots), lists
stand for numpy arrays / pandas series, and Python exceptions become
`Except String`.  Each definition transcribes one function of the
repository; spec-side definitions (clearly marked) transcribe the
specification's wording so the two can be compared.
-/

namespace BondArb

/-! ## numpy statistics helpers (exact-rational models of np.mean / np.var) -/

/-- Model of `np.mean` over exact rationals (`0` on the empty list, a case the
code never reaches on the guarded paths). -/
def npMean (l : List ℚ) : ℚ := l.sum / l.length

/-- Model of `np.var` with the default `ddof=0` (population variance). -/
def npVar (l : List ℚ) : ℚ := (l.map (fun y => (y - npMean l) ^ 2)).sum / l.length

/-- Model of `np.var(·, ddof=1)` (unbiased sample variance). -/
def npVarUnbiased (l : List ℚ) : ℚ :=
  (l.map (fun y => (y - npMean l) ^ 2)).sum / ((l.length : ℚ) - 1)

/-! ## src/src/strategies/bond_arb_strategy.py — BayesianBondArbStrategy

State is the `history` list; `update_parameters` is embedded as a function
from the pre-call history and the new observation to the post-call history
and the returned triple. -/

/-- `BayesianBondArbStrategy._get_prior_data`:
`history[max(0, len - prior_window - window_size) : len - window_size]`.
Python slice indices are integers; both are nonnegative on every call site
(the caller guarantees `len ≥ window_size + 2`). -/
def getPriorData (W P : ℕ) (hist : List ℚ) : List ℚ :=
  let start := (max 0 ((hist.length : ℤ) - (P : ℤ) - (W : ℤ))).toNat
  let stop := ((hist.length : ℤ) - (W : ℤ)).toNat
  (hist.take stop).drop start

/-- `BayesianBondArbStrategy._get_window_data`: `history[-window_size:]`,
the last `W` elements (`W > 0` on every call site). -/
def getWindowData (W : ℕ) (hist : List ℚ) : List ℚ :=
  hist.drop (hist.length - W)

/-- The `tau2 = np.var(prior_data)` value `update_parameters` computes and then
uses *without any floor* (`sigma_post2 = 1.0 / (n/window_var + 1/tau2)`). -/
def bayesTau2 (W P : ℕ) (h : List ℚ) (x : ℚ) : ℚ :=
  npVar (getPriorData W P (h ++ [x]))

/-- `BayesianBondArbStrategy.update_parameters`, transcribed line by line.
Returns the new history together with the returned triple
`(z_score, mu_post, sigma_post)` (`none` models the warm-up sentinel
`(None, None, None)`). -/
noncomputable def update_parameters (W P : ℕ) (h : List ℚ) (x : ℚ) :
    List ℚ × Option (ℝ × ℝ × ℝ) :=
  let hist := h ++ [x]
  if hist.length < W + 2 then (hist, none)
  else
    let prior := getPriorData W P hist
    let mu0 := npMean prior
    let tau2 := npVar prior
    let wd := getWindowData W hist
    let n : ℚ := wd.length
    let Xbar := npMean wd
    let windowVar := max (npVarUnbiased wd) (1 / 100000000)
    let sigmaPost2 : ℚ := 1 / (n / windowVar + 1 / tau2)
    let muPost : ℚ := sigmaPost2 * (n * Xbar / windowVar + mu0 / tau2)
    let sigmaPost : ℝ := Real.sqrt ((sigmaPost2 : ℚ) : ℝ)
    (hist, some (((x : ℝ) - (muPost : ℝ)) / sigmaPost, (muPost : ℝ), sigmaPost))

/-- Spec-side transcription of the claim for `update(x)` (§4.1): append `x`;
below `W + 2` observations return the warm-up sentinel; otherwise take
`prior_segment = history[max(0, n-P-W) : n-W]` (here via truncated natural
subtraction), `window_segment = history[-W:]`, and form the Normal-Normal
posterior with `n_w = W`, returning `(z, mu_post, sigma_post)`. -/
noncomputable def bayesSpecUpdate (W P : ℕ) (h : List ℚ) (x : ℚ) :
    List ℚ × Option (ℝ × ℝ × ℝ) :=
  let hist := h ++ [x]
  let n := hist.length
  if n < W + 2 then (hist, none)
  else
    let priorSegment := (hist.take (n - W)).drop (n - P - W)
    let mu0 := npMean priorSegment
    let tau2 := npVar priorSegment
    let windowSegment := hist.drop (n - W)
    let xBar := npMean windowSegment
    let windowVar := max (npVarUnbiased windowSegment) (1 / 100000000)
    let sigmaPost2 : ℚ := 1 / ((W : ℚ) / windowVar + 1 / tau2)
    let muPost : ℚ := sigmaPost2 * ((W : ℚ) * xBar / windowVar + mu0 / tau2)
    let sigmaPost : ℝ := Real.sqrt ((sigmaPost2 : ℚ) : ℝ)
    (hist, some (((x : ℝ) - (muPost : ℝ)) / sigmaPost, (muPost : ℝ), sigmaPost))

/-- The history after a stream of `update_parameters` calls starting from
history `h0`. -/
noncomputable def runHistory (W P : ℕ) (xs : List ℚ) (h0 : List ℚ) : List ℚ :=
  xs.foldl (fun h x => (update_parameters W P h x).1) h0

/-! ## src/src/utils/indicators.py -/

/-- `compute_z_score(value, mean, std)`: returns `0` when `std == 0`,
otherwise `(value - mean) / std`. -/
def compute_z_score (value mean std : ℚ) : ℚ :=
  if std = 0 then 0 else (value - mean) / std

/-! ## src/risk/risk_metrics.py — StrategyRiskAnalyzer

`trades` is the list of per-trade profits (the only field the analyzer
reads).  In `_process_trades` the attributes `returns` and `equity_curve`
are assigned only when the DataFrame is non-empty; accessing an unset
attribute raises `AttributeError`, and selecting the `profit` column of an
empty DataFrame raises `KeyError` — both modelled as `Except.error`. -/

structure RiskAnalyzer where
  trades : List ℚ
  initial_capital : ℚ
  returnsOpt : Option (List ℚ)
  equityOpt : Option (List ℚ)

/-- Cumulative sums (`pandas cumsum`). -/
def cumsumAux (acc : ℚ) : List ℚ → List ℚ
  | [] => []
  | p :: l => (acc + p) :: cumsumAux (acc + p) l

def cumsum (l : List ℚ) : List ℚ := cumsumAux 0 l

/-- `equity_curve = initial_capital + df.profit.cumsum()`. -/
def equityCurve (profits : List ℚ) (cap : ℚ) : List ℚ :=
  (cumsum profits).map (fun s => cap + s)

/-- `StrategyRiskAnalyzer.__init__` + `_process_trades`. -/
def mkStrategyRiskAnalyzer (profits : List ℚ) (cap : ℚ) : RiskAnalyzer :=
  if profits.isEmpty then ⟨profits, cap, none, none⟩
  else ⟨profits, cap, some (profits.map (fun p => p / cap)),
    some (equityCurve profits cap)⟩

/-- Attribute access `self.returns`. -/
def getReturns (a : RiskAnalyzer) : Except String (List ℚ) :=
  match a.returnsOpt with
  | none => Except.error "AttributeError"
  | some rs => Except.ok rs

/-- `np.percentile(a, q)` with the default linear interpolation between
order statistics. -/
def percentile (rs : List ℚ) (q : ℚ) : ℚ :=
  let s := List.insertionSort (· ≤ ·) rs
  let pos := q / 100 * ((s.length : ℚ) - 1)
  let i := ⌊pos⌋₊
  let frac := pos - (i : ℚ)
  if i + 1 < s.length then s.getD i 0 + frac * (s.getD (i + 1) 0 - s.getD i 0)
  else s.getD i 0

/-- `_historical_var` on a returns sample:
`np.percentile(returns, 100 * (1 - confidence_level))`. -/
def historicalVarRs (rs : List ℚ) (c : ℚ) : ℚ :=
  percentile rs (100 * (1 - c))

/-- `compute_strategy_var(method='historical', ·)`. -/
def computeStrategyVarHistorical (a : RiskAnalyzer) (c : ℚ) :
    Except String ℚ := do
  let rs ← getReturns a
  return historicalVarRs rs c

/-- `compute_strategy_cvar`: mean of the returns at or below the historical
VaR.  (numpy's mean of an empty selection is NaN; here it degrades to `0`,
a case no claim exercises.) -/
def computeStrategyCvar (a : RiskAnalyzer) (c : ℚ) : Except String ℚ := do
  let rs ← getReturns a
  return npMean (rs.filter (fun r => decide (r ≤ historicalVarRs rs c)))

/-- `np.maximum.accumulate`, running maximum with current maximum `c`. -/
def runningMaxAux (c : ℚ) : List ℚ → List ℚ
  | [] => [c]
  | b :: l => c :: runningMaxAux (max c b) l

def runningMax : List ℚ → List ℚ
  | [] => []
  | a :: l => runningMaxAux a l

/-- `drawdowns = (equity_curve - running_max) / running_max`, elementwise. -/
def ddList (equity : List ℚ) : List ℚ :=
  List.zipWith (fun e m => (e - m) / m) equity (runningMax equity)

/-- `drawdowns.min()` (pandas min; the empty case is unreachable because the
equity curve exists only for non-empty trade lists). -/
def ddMin : List ℚ → ℚ
  | [] => 0
  | a :: l => l.foldl min a

/-- `_compute_drawdown_duration`: `(drawdowns < 0).mean()`. -/
def ddDuration (dd : List ℚ) : ℚ :=
  if 0 < dd.length then ((dd.countP (fun x => decide (x < 0)) : ℚ)) / dd.length
  else 0

/-- `_compute_recovery_time`, transcribed:
`recoveries = np.diff((drawdowns < 0).astype(int)) == 1`, then
`recoveries.mean()` if any transitions exist, else `0`. -/
def codeRecoveryTime (dd : List ℚ) : ℚ :=
  let ind : List ℤ := dd.map (fun x => if x < 0 then 1 else 0)
  let diffs : List ℤ := List.zipWith (fun a b => b - a) ind ind.tail
  if 0 < diffs.length then
    ((diffs.countP (fun v => decide (v = 1)) : ℚ)) / diffs.length
  else 0

structure DrawdownStats where
  max_drawdown : ℚ
  drawdown_duration : ℚ
  recovery_time : ℚ
deriving DecidableEq

/-- The body of `compute_trade_drawdowns` given the equity curve. -/
def computeTradeDrawdownsE (equity : List ℚ) : DrawdownStats :=
  let dd := ddList equity
  ⟨ddMin dd, ddDuration dd, codeRecoveryTime dd⟩

/-- `compute_trade_drawdowns`; accesses `self.equity_curve`. -/
def computeTradeDrawdowns (a : RiskAnalyzer) : Except String DrawdownStats :=
  match a.equityOpt with
  | none => Except.error "AttributeError"
  | some e => Except.ok (computeTradeDrawdownsE e)

/-- `(self.df['profit'] > 0).mean()`; the `profit` column does not exist on
an empty DataFrame. -/
def winRate (a : RiskAnalyzer) : Except String ℚ :=
  if a.trades.isEmpty then Except.error "KeyError"
  else Except.ok (((a.trades.countP (fun p => decide (0 < p)) : ℚ)) / a.trades.length)

/-- `profit.clip(lower=0).sum() / -profit.clip(upper=0).sum()` (the `0/0`
case degrades to `0` here where pandas yields NaN; no claim exercises it). -/
def profitFactor (a : RiskAnalyzer) : Except String ℚ :=
  if a.trades.isEmpty then Except.error "KeyError"
  else Except.ok ((a.trades.map (fun p => max p 0)).sum /
    (-(a.trades.map (fun p => min p 0)).sum))

/-! ## Cornish-Fisher VaR (real-valued: `np.std` takes a square root, and
`norm.ppf` from scipy is modelled as an abstract function `ppf : ℝ → ℝ`). -/

noncomputable def rMean (rs : List ℝ) : ℝ := rs.sum / rs.length

/-- `np.var` (population) over the reals. -/
noncomputable def rVar (rs : List ℝ) : ℝ :=
  (rs.map (fun y => (y - rMean rs) ^ 2)).sum / rs.length

/-- `np.std` (population). -/
noncomputable def rStd (rs : List ℝ) : ℝ := Real.sqrt (rVar rs)

/-- Modelled from the spec: `_compute_skew` is called at
`risk_metrics.py:64` but is defined nowhere in the repository; §4.4 of the
spec specifies `skew` as the skewness of the per-trade returns (third
standardized central moment). -/
noncomputable def computeSkew (rs : List ℝ) : ℝ :=
  ((rs.map (fun y => (y - rMean rs) ^ 3)).sum / rs.length) / (rStd rs) ^ 3

/-- Modelled from the spec: `_compute_kurtosis` is called at
`risk_metrics.py:65` but is defined nowhere in the repository; §4.4 of the
spec specifies `kurt` as the excess kurtosis of the per-trade returns
(fourth standardized central moment minus 3). -/
noncomputable def computeKurtosis (rs : List ℝ) : ℝ :=
  ((rs.map (fun y => (y - rMean rs) ^ 4)).sum / rs.length) / (rStd rs) ^ 4 - 3

/-- `_cornish_fisher_var`, transcribed line by line (`z = norm.ppf(1 - c)`
with scipy's `norm.ppf` abstracted as `ppf`). -/
noncomputable def cornishFisherVar (ppf : ℝ → ℝ) (rs : List ℝ) (c : ℝ) : ℝ :=
  let skew := computeSkew rs
  let kurt := computeKurtosis rs
  let z := ppf (1 - c)
  let z_cf := z + (z ^ 2 - 1) * skew / 6 + (z ^ 3 - 3 * z) * kurt / 24 -
    (2 * z ^ 3 - 5 * z) * skew ^ 2 / 36
  rMean rs + rStd rs * z_cf

/-- Spec-side transcription of the claim's Cornish-Fisher formula:
`mean(returns) + std(returns) * z_cf` with
`z_cf = z + (z²-1)·skew/6 + (z³-3z)·kurt/24 - (2z³-5z)·skew²/36`,
`z = Φ⁻¹(1-confidence)`. -/
noncomputable def cornishFisherVarSpec (ppf : ℝ → ℝ) (rs : List ℝ) (c : ℝ) : ℝ :=
  rMean rs + rStd rs *
    (ppf (1 - c) + ((ppf (1 - c)) ^ 2 - 1) * computeSkew rs / 6 +
      ((ppf (1 - c)) ^ 3 - 3 * ppf (1 - c)) * computeKurtosis rs / 24 -
      (2 * (ppf (1 - c)) ^ 3 - 5 * ppf (1 - c)) * (computeSkew rs) ^ 2 / 36)

/-- `compute_strategy_var(method='cornish-fisher', ·)`; accesses
`self.returns`. -/
noncomputable def cornishFisherVarA (ppf : ℝ → ℝ) (a : RiskAnalyzer) (c : ℝ) :
    Except String ℝ :=
  match a.returnsOpt with
  | none => Except.error "AttributeError"
  | some rs => Except.ok (cornishFisherVar ppf (rs.map (fun q => (q : ℝ))) c)

/-- `compute_strategy_var(method='gaussian', ·)` (`_parametric_var`). -/
noncomputable def parametricVarA (ppf : ℝ → ℝ) (a : RiskAnalyzer) (c : ℝ) :
    Except String ℝ :=
  match a.returnsOpt with
  | none => Except.error "AttributeError"
  | some rs =>
    Except.ok (rMean (rs.map (fun q => (q : ℝ))) +
      rStd (rs.map (fun q => (q : ℝ))) * ppf (1 - c))

/-- `generate_risk_report`: the six report fields in the order the dict
literal evaluates them (the first raising expression aborts the report). -/
noncomputable def generateRiskReport (ppf : ℝ → ℝ) (a : RiskAnalyzer) :
    Except String (ℝ × ℝ × ℝ × ℝ × ℝ × ℝ) := do
  let v1 ← computeStrategyVarHistorical a (19 / 20)
  let v2 ← cornishFisherVarA ppf a (19 / 20)
  let cv ← computeStrategyCvar a (19 / 20)
  let dd ← computeTradeDrawdowns a
  let pf ← profitFactor a
  let wr ← winRate a
  return ((v1 : ℝ), v2, (cv : ℝ), ((dd.max_drawdown : ℚ) : ℝ), (pf : ℝ), (wr : ℝ))

/-- The claim's reading of `recovery_rate` (C5, as stated): the fraction of
consecutive-index transitions from a strictly negative drawdown to a zero
drawdown, over all index transitions. -/
def claimRecoveryRate (dd : List ℚ) : ℚ :=
  if 2 ≤ dd.length then
    (((dd.zip dd.tail).countP (fun p => decide (p.1 < 0 ∧ p.2 = 0)) : ℚ)) /
      ((dd.length - 1 : ℕ) : ℚ)
  else 0

/-- What `_compute_recovery_time` actually measures: the fraction of
consecutive-index transitions from a non-negative drawdown to a strictly
negative one (entries *into* drawdown), over all index transitions. -/
def amendedRecoveryRate (dd : List ℚ) : ℚ :=
  if 2 ≤ dd.length then
    (((dd.zip dd.tail).countP (fun p => decide (0 ≤ p.1 ∧ p.2 < 0)) : ℚ)) /
      ((dd.length - 1 : ℕ) : ℚ)
  else 0

/-! ## Helper lemmas for the estimator -/

lemma update_parameters_fst (W P : ℕ) (h : List ℚ) (x : ℚ) :
    (update_parameters W P h x).1 = h ++ [x] := by
  unfold update_parameters
  dsimp only
  split <;> rfl

lemma runHistory_length (W P : ℕ) (xs : List ℚ) :
    ∀ h0 : List ℚ, (runHistory W P xs h0).length = h0.length + xs.length := by
  induction xs with
  | nil => intro h0; simp [runHistory]
  | cons x xs ih =>
      intro h0
      simp only [runHistory, List.foldl_cons] at *
      rw [ih, update_parameters_fst]
      simp
      omega

lemma getPriorData_eq_truncated (W P : ℕ) (hist : List ℚ) :
    getPriorData W P hist =
      (hist.take (hist.length - W)).drop (hist.length - P - W) := by
  unfold getPriorData
  have h1 : (((hist.length : ℤ) - (W : ℤ)).toNat) = hist.length - W := by omega
  have h2 : ((max 0 ((hist.length : ℤ) - (P : ℤ) - (W : ℤ))).toNat)
      = hist.length - P - W := by omega
  rw [h1, h2]

lemma getWindowData_length_cast (W : ℕ) (hist : List ℚ) (hle : W ≤ hist.length) :
    (((getWindowData W hist).length : ℚ)) = (W : ℚ) := by
  unfold getWindowData
  rw [List.length_drop]
  norm_cast
  omega

/-- C1: past the warm-up threshold `W + 2`, each `update(x)` call appends `x`
and returns `(z, mu_post, sigma_post)` built from the prior segment
`history[max(0, n-P-W) : n-W]` and the floored unbiased variance of
`history[-W:]` via Normal-Normal conjugacy, exactly as the specification
states; below the threshold it returns the warm-up sentinel. -/
theorem update_parameters_matches_spec (W P : ℕ) (_hW : 0 < W) (_hP : 0 < P)
    (h : List ℚ) (x : ℚ) :
    update_parameters W P h x = bayesSpecUpdate W P h x := by
  unfold update_parameters bayesSpecUpdate
  dsimp only
  by_cases hl : (h ++ [x]).length < W + 2
  · simp only [if_pos hl]
  · simp only [if_neg hl]
    have hWle : W ≤ (h ++ [x]).length := by
      simp only [not_lt] at hl
      omega
    rw [getPriorData_eq_truncated]
    rw [show getWindowData W (h ++ [x]) = (h ++ [x]).drop ((h ++ [x]).length - W)
        from rfl] at *
    rw [show ((((h ++ [x]).drop ((h ++ [x]).length - W)).length : ℚ)) = (W : ℚ)
        from getWindowData_length_cast W (h ++ [x]) hWle]

/-- Witness for C1 at `W = 2`, `P = 3`, history `[0,0,0]`, observation `1`
(past warm-up: the new history has length `4 = W + 2`). -/
theorem update_parameters_matches_spec_witness :
    0 < 2 ∧ 0 < 3 ∧
      update_parameters 2 3 [0, 0, 0] 1 = bayesSpecUpdate 2 3 [0, 0, 0] 1 :=
  ⟨by norm_num, by norm_num,
    update_parameters_matches_spec 2 3 (by norm_num) (by norm_num) [0, 0, 0] 1⟩

/-- C2: with `window_size = 2`, `prior_window = 3` and the constant
observation stream `0, 0, 0, 0`, the fourth call is past warm-up
(`4 ≥ W + 2`) yet the `tau2` the code computes — and divides by without any
floor — is `0`, not a value floored to `1e-8` as the claim requires. -/
theorem tau2_not_floored :
    bayesTau2 2 3 [0, 0, 0] 0 = 0 ∧
      bayesTau2 2 3 [0, 0, 0] 0 < 1 / 100000000 ∧
      ¬ (([(0 : ℚ), 0, 0] ++ [0]).length < 2 + 2) := by
  refine ⟨?_, ?_, by decide⟩ <;>
    norm_num [bayesTau2, getPriorData, npVar, npMean, Int.toNat_ofNat,
      List.take, List.sum_cons, List.sum_nil]

/-- C9 (amended): the history buffer is *not* bounded — starting from an
empty history, its length after a stream of updates equals exactly the
number of `update_parameters` calls, growing by one per observation. -/
theorem runHistory_unbounded_growth (W P : ℕ) (xs : List ℚ) :
    (runHistory W P xs []).length = xs.length := by
  rw [runHistory_length]
  simp

/-- C9 (counterexample): at the default parameters `window_size = 40`,
`prior_window = 120`, no bound `B` caps the history length over all finite
observation streams — refuting the claimed bounded buffer. -/
theorem no_history_bound :
    ¬ ∃ B : ℕ, ∀ xs : List ℚ, (runHistory 40 120 xs []).length ≤ B := by
  rintro ⟨B, hB⟩
  have h := hB (List.replicate (B + 1) 0)
  rw [runHistory_length] at h
  simp at h

/-- C10: `compute_z_score` is total — it returns exactly `0` whenever
`std = 0`, and `(value - mean) / std` whenever `std ≠ 0`. -/
theorem compute_z_score_total (value mean std : ℚ) :
    compute_z_score value mean 0 = 0 ∧
      (std ≠ 0 → compute_z_score value mean std = (value - mean) / std) := by
  constructor
  · simp [compute_z_score]
  · intro hstd
    simp [compute_z_score, hstd]

/-- Witness for C10 at `value = 3`, `mean = 1`, `std = 2`. -/
theorem compute_z_score_total_witness :
    compute_z_score 3 1 0 = 0 ∧
      ((2 : ℚ) ≠ 0 ∧ compute_z_score 3 1 2 = (3 - 1) / 2) :=
  ⟨(compute_z_score_total 3 1 2).1, by norm_num,
    (compute_z_score_total 3 1 2).2 (by norm_num)⟩

/-- C3: on the empty trade sequence the analyzer does *not* return its
sentinel values — `_process_trades` leaves `returns` and `equity_curve`
unset, so every statistic (VaR by each valid method, CVaR, the drawdown
statistics, win rate, profit factor and the full report) raises
(`AttributeError` / `KeyError` on the missing `profit` column) instead of
degrading to `0`/NaN. -/
theorem empty_trades_raise (cap : ℚ) (ppf : ℝ → ℝ) :
    computeStrategyVarHistorical (mkStrategyRiskAnalyzer [] cap) (19 / 20)
        = Except.error "AttributeError" ∧
      cornishFisherVarA ppf (mkStrategyRiskAnalyzer [] cap) (19 / 20)
        = Except.error "AttributeError" ∧
      parametricVarA ppf (mkStrategyRiskAnalyzer [] cap) (19 / 20)
        = Except.error "AttributeError" ∧
      computeStrategyCvar (mkStrategyRiskAnalyzer [] cap) (19 / 20)
        = Except.error "AttributeError" ∧
      computeTradeDrawdowns (mkStrategyRiskAnalyzer [] cap)
        = Except.error "AttributeError" ∧
      winRate (mkStrategyRiskAnalyzer [] cap) = Except.error "KeyError" ∧
      profitFactor (mkStrategyRiskAnalyzer [] cap) = Except.error "KeyError" ∧
      generateRiskReport ppf (mkStrategyRiskAnalyzer [] cap)
        = Except.error "AttributeError" :=
  ⟨rfl, rfl, rfl, rfl, rfl, rfl, rfl, rfl⟩

/-- C4: on any non-empty return sample and confidence level in `(0,1)`,
`_cornish_fisher_var` returns exactly the claimed
`mean(returns) + std(returns) * z_cf` with the claimed third-order
Cornish-Fisher expansion `z_cf` (with `Φ⁻¹` abstracted as `ppf`, and the
skew / excess-kurtosis inputs modelled from the spec because
`_compute_skew` / `_compute_kurtosis` are not defined in the repository). -/
theorem cornish_fisher_var_matches_spec (ppf : ℝ → ℝ) (rs : List ℝ) (c : ℝ)
    (_hne : rs ≠ []) (_h0 : 0 < c) (_h1 : c < 1) :
    cornishFisherVar ppf rs c = cornishFisherVarSpec ppf rs c := rfl

/-- Witness for C4 at `ppf = fun _ => 0`, returns `[1]`, confidence `1/2`. -/
theorem cornish_fisher_var_matches_spec_witness :
    ([(1 : ℝ)] ≠ [] ∧ (0 : ℝ) < 1 / 2 ∧ (1 : ℝ) / 2 < 1) ∧
      cornishFisherVar (fun _ => 0) [(1 : ℝ)] (1 / 2)
        = cornishFisherVarSpec (fun _ => 0) [(1 : ℝ)] (1 / 2) :=
  ⟨⟨by simp, by norm_num, by norm_num⟩,
    cornish_fisher_var_matches_spec (fun _ => 0) [(1 : ℝ)] (1 / 2)
      (by simp) (by norm_num) (by norm_num)⟩

/-! ## Drawdown lemmas (C5, C6) -/

lemma recovery_count_eq :
    ∀ dd : List ℚ,
      (List.zipWith (fun a b => b - a)
          (dd.map (fun x => if x < 0 then (1 : ℤ) else 0))
          (dd.map (fun x => if x < 0 then (1 : ℤ) else 0)).tail).countP
          (fun v => decide (v = 1))
        = (dd.zip dd.tail).countP (fun p => decide (0 ≤ p.1 ∧ p.2 < 0))
  | [] => rfl
  | [_] => rfl
  | a :: b :: t => by
      have ih := recovery_count_eq (b :: t)
      simp only [List.map_cons, List.tail_cons, List.zipWith_cons_cons,
        List.countP_cons, List.zip_cons_cons] at ih ⊢
      rw [ih]
      congr 1
      by_cases ha : a < 0 <;> by_cases hb : b < 0
      · simp [ha, hb, ha.not_le]
      · simp [ha, hb, ha.not_le]
      · simp [ha, hb, not_lt.1 ha]
      · simp [ha, hb, not_lt.1 ha]

lemma codeRecoveryTime_eq_amended (dd : List ℚ) :
    codeRecoveryTime dd = amendedRecoveryRate dd := by
  unfold codeRecoveryTime amendedRecoveryRate
  dsimp only
  rw [recovery_count_eq dd]
  have hlen : (List.zipWith (fun a b : ℤ => b - a)
      (dd.map (fun x => if x < 0 then (1 : ℤ) else 0))
      (dd.map (fun x => if x < 0 then (1 : ℤ) else 0)).tail).length
      = dd.length - 1 := by
    rw [List.length_zipWith]
    simp only [List.length_map, List.length_tail]
    omega
  rw [hlen]
  split_ifs with h1 h2 h3
  · rfl
  · omega
  · omega
  · rfl

/-- C5 (amended): the `recovery_time` statistic returned by
`compute_trade_drawdowns` equals the fraction of consecutive-index
transitions at which the drawdown series moves from a *non-negative* value
to a *strictly negative* one — entries into drawdown, not recoveries —
over all index transitions (`0` when there are fewer than two points). -/
theorem recovery_time_counts_drawdown_entries (equity : List ℚ) :
    (computeTradeDrawdownsE equity).recovery_time
      = amendedRecoveryRate (ddList equity) :=
  codeRecoveryTime_eq_amended (ddList equity)

/-- C5 (counterexample): for the equity curve of the two trades
`+100, -100` on capital `10^6` the drawdown series is `[0, -1/10001]`;
the code reports a recovery rate of `1` (it counts the entry into
drawdown), while the claimed fraction of `drawdown<0 → drawdown==0`
transitions is `0`. -/
theorem recovery_time_is_not_recovery_fraction :
    (computeTradeDrawdownsE (equityCurve [100, -100] 1000000)).recovery_time
      ≠ claimRecoveryRate (ddList (equityCurve [100, -100] 1000000)) := by
  norm_num [computeTradeDrawdownsE, equityCurve, cumsum, cumsumAux, ddList,
    runningMax, runningMaxAux, codeRecoveryTime, claimRecoveryRate,
    List.countP_cons, List.countP_nil]

/-! ## C6: drawdowns are nonpositive when the equity curve stays positive -/

lemma le_runningMaxAux :
    ∀ (t : List ℚ) (x c : ℚ), x ≤ c →
      ∀ p ∈ (x :: t).zip (runningMaxAux c t), p.1 ≤ p.2
  | [], x, c, hxc => by
      intro p hp
      simp only [runningMaxAux, List.zip_cons_cons, List.zip_nil_left,
        List.mem_singleton] at hp
      rw [hp]
      exact hxc
  | b :: t, x, c, hxc => by
      intro p hp
      simp only [runningMaxAux, List.zip_cons_cons, List.mem_cons] at hp
      rcases hp with h | h
      · rw [h]; exact hxc
      · exact le_runningMaxAux t b (max c b) (le_max_right c b) p h

lemma zip_runningMax_le (l : List ℚ) : ∀ p ∈ l.zip (runningMax l), p.1 ≤ p.2 := by
  cases l with
  | nil => simp
  | cons a t => exact le_runningMaxAux t a a le_rfl

lemma mem_zipWith_pair :
    ∀ (l₁ l₂ : List ℚ) (f : ℚ → ℚ → ℚ) (c : ℚ),
      c ∈ List.zipWith f l₁ l₂ → ∃ p ∈ l₁.zip l₂, c = f p.1 p.2
  | [], _, _, c => by simp
  | _ :: _, [], _, c => by simp
  | a :: l₁, b :: l₂, f, c => by
      intro h
      simp only [List.zipWith_cons_cons, List.mem_cons] at h
      rcases h with h | h
      · exact ⟨(a, b), List.mem_cons_self _ _, h⟩
      · obtain ⟨p, hp, hc⟩ := mem_zipWith_pair l₁ l₂ f c h
        exact ⟨p, List.mem_cons_of_mem _ hp, hc⟩

lemma ddList_mem_nonpos (equity : List ℚ) (hpos : ∀ e ∈ equity, 0 < e) :
    ∀ d ∈ ddList equity, d ≤ 0 := by
  intro d hd
  obtain ⟨p, hp, rfl⟩ := mem_zipWith_pair equity (runningMax equity) _ d hd
  have h1 : p.1 ≤ p.2 := zip_runningMax_le equity p hp
  have h2 : 0 < p.1 := hpos p.1 (List.of_mem_zip hp).1
  exact div_nonpos_iff.mpr (Or.inr ⟨sub_nonpos.2 h1, le_of_lt (lt_of_lt_of_le h2 h1)⟩)

lemma foldl_min_nonpos :
    ∀ (t : List ℚ) (a : ℚ), a ≤ 0 → t.foldl min a ≤ 0
  | [], _, ha => ha
  | b :: t, a, ha =>
      foldl_min_nonpos t (min a b) (le_trans (min_le_left a b) ha)

lemma ddMin_nonpos (dd : List ℚ) (h : ∀ d ∈ dd, d ≤ 0) : ddMin dd ≤ 0 := by
  cases dd with
  | nil => exact le_refl 0
  | cons a t => exact foldl_min_nonpos t a (h a (List.mem_cons_self a t))

/-- C6 (amended): for every trade sequence whose equity curve stays
strictly positive (so every running maximum is positive), each drawdown
value `(equity[i] - running_max[i]) / running_max[i]` is `≤ 0` and hence
`max_drawdown ≤ 0`.  (The restriction is necessary: when cumulative losses
push the equity curve negative the denominator flips the sign.) -/
theorem drawdowns_nonpos_of_positive_equity (profits : List ℚ) (cap : ℚ)
    (hpos : ∀ e ∈ equityCurve profits cap, 0 < e) :
    (∀ d ∈ ddList (equityCurve profits cap), d ≤ 0) ∧
      (computeTradeDrawdownsE (equityCurve profits cap)).max_drawdown ≤ 0 :=
  ⟨ddList_mem_nonpos _ hpos, ddMin_nonpos _ (ddList_mem_nonpos _ hpos)⟩

/-- Witness for C6 at trades `+10, -5` on capital `100` (equity
`[110, 105]`, everywhere positive). -/
theorem drawdowns_nonpos_of_positive_equity_witness :
    (∀ e ∈ equityCurve [10, -5] 100, 0 < e) ∧
      ((∀ d ∈ ddList (equityCurve [10, -5] 100), d ≤ 0) ∧
        (computeTradeDrawdownsE (equityCurve [10, -5] 100)).max_drawdown ≤ 0) :=
  ⟨by norm_num [equityCurve, cumsum, cumsumAux],
    drawdowns_nonpos_of_positive_equity [10, -5] 100
      (by norm_num [equityCurve, cumsum, cumsumAux])⟩

/-- C6 (counterexample): for the trades `-2·10^6, -10^6` on the default
capital `10^6` the equity curve is `[-10^6, -2·10^6]`; the running maximum
is negative, and the second drawdown value is `+1 > 0` — refuting
"drawdown[i] ≤ 0 always". -/
theorem drawdown_positive_on_negative_equity :
    ¬ (∀ d ∈ ddList (equityCurve [-2000000, -1000000] 1000000), d ≤ 0) := by
  have hev : ddList (equityCurve [-2000000, -1000000] 1000000) = [0, 1] := by
    norm_num [ddList, equityCurve, cumsum, cumsumAux, runningMax, runningMaxAux]
  intro h
  rw [hev] at h
  have := h 1 (by simp)
  norm_num at this

/-! ## C8: historical VaR is non-increasing in the confidence level -/

lemma sorted_getD_mono (s : List ℚ) (hs : List.Sorted (· ≤ ·) s) {i j : ℕ}
    (hij : i ≤ j) (hj : j < s.length) : s.getD i 0 ≤ s.getD j 0 := by
  have hi : i < s.length := lt_of_le_of_lt hij hj
  have h := List.Sorted.rel_get_of_le hs
    (show (⟨i, hi⟩ : Fin s.length) ≤ ⟨j, hj⟩ from hij)
  rw [List.getD_eq_getElem s 0 hi, List.getD_eq_getElem s 0 hj]
  simpa [List.get_eq_getElem] using h

lemma percentile_mono (rs : List ℚ) (hne : rs ≠ []) {q₁ q₂ : ℚ}
    (h0 : 0 ≤ q₁) (h12 : q₁ ≤ q₂) (h100 : q₂ ≤ 100) :
    percentile rs q₁ ≤ percentile rs q₂ := by
  unfold percentile
  dsimp only
  set s := List.insertionSort (· ≤ ·) rs with hs_def
  have hsorted : List.Sorted (· ≤ ·) s := List.sorted_insertionSort _ rs
  have hpos : 0 < s.length := by
    rw [(List.perm_insertionSort (· ≤ ·) rs).length_eq]
    exact List.length_pos.mpr hne
  set n := s.length with hn_def
  set m : ℚ := (n : ℚ) - 1 with hm_def
  have hm0 : 0 ≤ m := by
    have : (1 : ℚ) ≤ (n : ℚ) := by exact_mod_cast hpos
    rw [hm_def]; linarith
  set p₁ : ℚ := q₁ / 100 * m with hp₁_def
  set p₂ : ℚ := q₂ / 100 * m with hp₂_def
  have hp12 : p₁ ≤ p₂ := by
    rw [hp₁_def, hp₂_def]
    exact mul_le_mul_of_nonneg_right (by linarith) hm0
  have hp₁0 : 0 ≤ p₁ := by
    rw [hp₁_def]
    exact mul_nonneg (by positivity) hm0
  have hp₂0 : 0 ≤ p₂ := le_trans hp₁0 hp12
  have hp₂m : p₂ ≤ m := by
    rw [hp₂_def]
    calc q₂ / 100 * m ≤ 1 * m :=
          mul_le_mul_of_nonneg_right (by linarith) hm0
      _ = m := one_mul m
  set i₁ := ⌊p₁⌋₊ with hi₁_def
  set i₂ := ⌊p₂⌋₊ with hi₂_def
  have hi12 : i₁ ≤ i₂ := Nat.floor_mono hp12
  have hi₂n : i₂ < n := by
    have h1 : (i₂ : ℚ) ≤ m := le_trans (Nat.floor_le hp₂0) hp₂m
    have h2 : (i₂ : ℚ) + 1 ≤ (n : ℚ) := by rw [hm_def] at h1; linarith
    have h3 : i₂ + 1 ≤ n := by exact_mod_cast h2
    omega
  have hf₁lt : p₁ - (i₁ : ℚ) < 1 := by
    have := Nat.lt_floor_add_one p₁; linarith
  have hf₁0 : 0 ≤ p₁ - (i₁ : ℚ) := by
    have := Nat.floor_le hp₁0; linarith
  have hf₂0 : 0 ≤ p₂ - (i₂ : ℚ) := by
    have := Nat.floor_le hp₂0; linarith
  rcases eq_or_lt_of_le hi12 with heq | hlt
  · rw [← heq]
    have hfr : p₁ - (i₁ : ℚ) ≤ p₂ - (i₁ : ℚ) := by linarith
    by_cases hnext : i₁ + 1 < n
    · rw [if_pos hnext, if_pos hnext]
      have hadj : s.getD i₁ 0 ≤ s.getD (i₁ + 1) 0 :=
        sorted_getD_mono s hsorted (Nat.le_succ i₁) hnext
      exact add_le_add_left
        (mul_le_mul_of_nonneg_right hfr (sub_nonneg.2 hadj)) _
    · rw [if_neg hnext, if_neg hnext]
  · have h11 : i₁ + 1 < n := lt_of_le_of_lt (Nat.succ_le_of_lt hlt) hi₂n
    have hadj1 : s.getD i₁ 0 ≤ s.getD (i₁ + 1) 0 :=
      sorted_getD_mono s hsorted (Nat.le_succ i₁) h11
    have hv₁ : s.getD i₁ 0 + (p₁ - (i₁ : ℚ)) * (s.getD (i₁ + 1) 0 - s.getD i₁ 0)
        ≤ s.getD (i₁ + 1) 0 := by
      nlinarith [mul_le_mul_of_nonneg_right hf₁lt.le (sub_nonneg.2 hadj1)]
    have hmid : s.getD (i₁ + 1) 0 ≤ s.getD i₂ 0 :=
      sorted_getD_mono s hsorted (Nat.succ_le_of_lt hlt) hi₂n
    rw [if_pos h11]
    by_cases h2 : i₂ + 1 < n
    · rw [if_pos h2]
      have hadj2 : s.getD i₂ 0 ≤ s.getD (i₂ + 1) 0 :=
        sorted_getD_mono s hsorted (Nat.le_succ i₂) h2
      nlinarith [mul_nonneg hf₂0 (sub_nonneg.2 hadj2)]
    · rw [if_neg h2]
      linarith

/-- C8: for a fixed non-empty return sample, historical VaR (the
`(1-confidence)`-percentile with linear interpolation) is non-increasing
in the confidence level. -/
theorem historical_var_nonincreasing (rs : List ℚ) (hne : rs ≠ [])
    (c₁ c₂ : ℚ) (h₁ : 0 < c₁) (h₁₂ : c₁ ≤ c₂) (h₂ : c₂ < 1) :
    historicalVarRs rs c₂ ≤ historicalVarRs rs c₁ := by
  unfold historicalVarRs
  exact percentile_mono rs hne (by linarith) (by linarith) (by linarith)

/-- Witness for C8 at returns `[1, 2]`, confidences `1/2 ≤ 3/4`. -/
theorem historical_var_nonincreasing_witness :
    ([(1 : ℚ), 2] ≠ [] ∧ (0 : ℚ) < 1 / 2 ∧ (1 : ℚ) / 2 ≤ 3 / 4 ∧
        (3 : ℚ) / 4 < 1) ∧
      historicalVarRs [1, 2] (3 / 4) ≤ historicalVarRs [1, 2] (1 / 2) :=
  ⟨⟨by simp, by norm_num, by norm_num, by norm_num⟩,
    historical_var_nonincreasing [1, 2] (by simp) (1 / 2) (3 / 4)
      (by norm_num) (by norm_num) (by norm_num)⟩

/-! ## src/research/backtesting.py — BondArbBacktest.backtest

A row carries the values the loop reads from the DataFrame:
`(rolling_mean, rolling_std, spread)`.  Positions are the code's integers
`0` (flat), `1` (long), `-1` (short). -/

/-- One iteration of the loop body of `BondArbBacktest.backtest`
(lines 27-37), for `i > 0`. -/
def backtestStep (threshold : ℚ) (pos : ℤ) (r : ℚ × ℚ × ℚ) : ℤ :=
  let mean := r.1
  let std := r.2.1
  let spread := r.2.2
  if pos = 0 then
    if spread > mean + threshold * std then -1
    else if spread < mean - threshold * std then 1
    else 0
  else if (pos = 1 ∧ spread ≥ mean) ∨ (pos = -1 ∧ spread ≤ mean) then 0
  else pos

def backtestPositionsAux (threshold : ℚ) (pos : ℤ) :
    List (ℚ × ℚ × ℚ) → List ℤ
  | [] => []
  | r :: rs =>
      backtestStep threshold pos r ::
        backtestPositionsAux threshold (backtestStep threshold pos r) rs

/-- `BondArbBacktest.backtest`: the `positions` column.  The first row is
skipped (`if i == 0: positions.append(0); continue`), every later row runs
the transition body. -/
def backtestPositions (threshold : ℚ) (rows : List (ℚ × ℚ × ℚ)) : List ℤ :=
  match rows with
  | [] => []
  | _ :: rest => 0 :: backtestPositionsAux threshold 0 rest

/-- The z-score the claim assigns to a row:
`z = (spread - rolling_mean) / rolling_std`. -/
def rowZ (r : ℚ × ℚ × ℚ) : ℚ := (r.2.2 - r.1) / r.2.1

inductive SpecPos where
  | flat
  | long
  | short
deriving DecidableEq

def posToInt : SpecPos → ℤ
  | .flat => 0
  | .long => 1
  | .short => -1

/-- The §4.2 state machine exactly as the claim states it: from FLAT open
SHORT when `z ≥ entry_threshold`, LONG when `z ≤ -entry_threshold`; close
LONG when `z ≥ long_exit_threshold`, SHORT when `z ≤ short_exit_threshold`. -/
def specStep (entry longExit shortExit : ℚ) (p : SpecPos) (z : ℚ) : SpecPos :=
  match p with
  | .flat => if z ≥ entry then .short else if z ≤ -entry then .long else .flat
  | .long => if z ≥ longExit then .flat else .long
  | .short => if z ≤ shortExit then .flat else .short

def specRunAux (entry longExit shortExit : ℚ) (p : SpecPos) :
    List ℚ → List SpecPos
  | [] => []
  | z :: zs =>
      specStep entry longExit shortExit p z ::
        specRunAux entry longExit shortExit
          (specStep entry longExit shortExit p z) zs

/-- The machine the rolling backtest actually realizes: identical to
`specStep` except that the two FLAT entries use *strict* inequalities
(`z > entry`, `z < -entry`), matching `spread > upper` / `spread < lower`. -/
def specStepStrict (entry longExit shortExit : ℚ) (p : SpecPos) (z : ℚ) :
    SpecPos :=
  match p with
  | .flat => if z > entry then .short else if z < -entry then .long else .flat
  | .long => if z ≥ longExit then .flat else .long
  | .short => if z ≤ shortExit then .flat else .short

def specRunStrictAux (entry longExit shortExit : ℚ) (p : SpecPos) :
    List ℚ → List SpecPos
  | [] => []
  | z :: zs =>
      specStepStrict entry longExit shortExit p z ::
        specRunStrictAux entry longExit shortExit
          (specStepStrict entry longExit shortExit p z) zs

lemma backtestStep_agrees (threshold : ℚ) (p : SpecPos) (r : ℚ × ℚ × ℚ)
    (hstd : 0 < r.2.1) :
    backtestStep threshold (posToInt p) r
      = posToInt (specStepStrict threshold 0 0 p (rowZ r)) := by
  obtain ⟨mean, std, spread⟩ := r
  simp only at hstd
  cases p with
  | flat =>
      simp only [backtestStep, specStepStrict, posToInt, rowZ, gt_iff_lt]
      have h1 : threshold < (spread - mean) / std ↔
          mean + threshold * std < spread := by
        rw [lt_div_iff₀ hstd]
        constructor <;> intro h <;> linarith
      have h2 : (spread - mean) / std < -threshold ↔
          spread < mean - threshold * std := by
        rw [div_lt_iff₀ hstd]
        constructor <;> intro h <;> linarith
      by_cases hu : mean + threshold * std < spread
      · simp [hu, h1.mpr hu]
      · by_cases hl : spread < mean - threshold * std
        · simp [hu, hl, h1, h2]
        · simp [hu, hl, h1, h2]
  | long =>
      simp only [backtestStep, specStepStrict, posToInt, rowZ]
      have h3 : (0 : ℚ) ≤ (spread - mean) / std ↔ mean ≤ spread := by
        rw [le_div_iff₀ hstd]
        constructor <;> intro h <;> linarith
      by_cases hge : mean ≤ spread
      · simp [hge, h3.mpr hge, ge_iff_le]
      · have : ¬ ((0 : ℚ) ≤ (spread - mean) / std) := fun h => hge (h3.mp h)
        simp [hge, this, ge_iff_le]
  | short =>
      simp only [backtestStep, specStepStrict, posToInt, rowZ]
      have h4 : (spread - mean) / std ≤ 0 ↔ spread ≤ mean := by
        rw [div_le_iff₀ hstd]
        constructor <;> intro h <;> linarith
      by_cases hle : spread ≤ mean
      · simp [hle, h4.mpr hle]
      · have : ¬ ((spread - mean) / std ≤ 0) := fun h => hle (h4.mp h)
        simp [hle, this]

lemma backtestPositionsAux_agrees (threshold : ℚ) :
    ∀ (rows : List (ℚ × ℚ × ℚ)) (p : SpecPos),
      (∀ r ∈ rows, 0 < r.2.1) →
      backtestPositionsAux threshold (posToInt p) rows
        = (specRunStrictAux threshold 0 0 p (rows.map rowZ)).map posToInt
  | [], _, _ => rfl
  | r :: rs, p, hstd => by
      have hr : 0 < r.2.1 := hstd r (List.mem_cons_self r rs)
      have hrest : ∀ x ∈ rs, 0 < x.2.1 :=
        fun x hx => hstd x (List.mem_cons_of_mem r hx)
      simp only [backtestPositionsAux, List.map_cons, specRunStrictAux]
      rw [backtestStep_agrees threshold p r hr]
      rw [backtestPositionsAux_agrees threshold rs
        (specStepStrict threshold 0 0 p (rowZ r)) hrest]

/-- C7 (amended): on rows with positive rolling std, `backtest` emits FLAT
for the first row (which it skips) and thereafter drives the §4.2 machine
with z-score source `z = (spread - rolling_mean)/rolling_std`, entry
threshold `self.threshold` and both exit thresholds `0` — except that the
two FLAT-state entry comparisons are *strict* (`z > threshold` /
`z < -threshold`), and no transaction cost exists in this variant. -/
theorem backtest_realizes_strict_machine (threshold : ℚ)
    (rows : List (ℚ × ℚ × ℚ)) (hstd : ∀ r ∈ rows, 0 < r.2.1) :
    backtestPositions threshold rows
      = match rows with
        | [] => []
        | _ :: rest =>
            0 :: (specRunStrictAux threshold 0 0 .flat (rest.map rowZ)).map
              posToInt := by
  cases rows with
  | nil => rfl
  | cons r rest =>
      simp only [backtestPositions]
      rw [show (0 : ℤ) = posToInt .flat from rfl,
        backtestPositionsAux_agrees threshold rest .flat
          (fun x hx => hstd x (List.mem_cons_of_mem r hx))]

/-- Witness for C7 (amended) on the rows
`[(0, 1, 0), (0, 1, 2)]` (std `1 > 0`; the second row's z-score `2` opens
a SHORT). -/
theorem backtest_realizes_strict_machine_witness :
    (∀ r ∈ [((0 : ℚ), (1 : ℚ), (0 : ℚ)), (0, 1, 2)], 0 < r.2.1) ∧
      backtestPositions 1 [(0, 1, 0), (0, 1, 2)]
        = 0 :: (specRunStrictAux 1 0 0 .flat
            ([((0 : ℚ), (1 : ℚ), (2 : ℚ))].map rowZ)).map posToInt :=
  ⟨by norm_num,
    backtest_realizes_strict_machine 1 [(0, 1, 0), (0, 1, 2)] (by norm_num)⟩

/-- C7 (counterexample): with `threshold = 1` and rows
`[(0,1,0), (0,1,1)]`, the second row has `z = 1 = entry_threshold`; the
claimed non-strict machine opens a SHORT (`z ≥ entry`), but the code stays
FLAT (`spread > upper` fails at equality) — so `backtest` does not realize
the §4.2 contract as stated. -/
theorem backtest_differs_from_nonstrict_machine :
    backtestPositions 1 [(0, 1, 0), (0, 1, 1)]
      ≠ 0 :: (specRunAux 1 0 0 .flat
          ([((0 : ℚ), (1 : ℚ), (0 : ℚ)), (0, 1, 1)].tail.map rowZ)).map
            posToInt := by
  norm_num [backtestPositions, backtestPositionsAux, backtestStep,
    specRunAux, specStep, rowZ, posToInt]

end BondArb
